import Mathlib

/-!
Verification development for the qmail-client mail search tool.

The embedding below translates the search-and-filter engine of
`src/client.rs` (`MailFilter::fetch`, `MailBox::download`, `Attachment::new`)
and the interactive navigation of `src/search.rs` (`App::next`,
`App::previous`) into Lean.

Conventions of the embedding:
* Timestamps are epoch seconds (`Int`), matching `chrono::DateTime::timestamp()`.
* Rust panics (`unwrap()` on `None`/`Err`, out-of-bounds indexing, `usize`
  subtraction underflow) are modelled by the `Except PanicE` monad: an
  `Except.error` value means the program aborts at that point and no further
  work of the run happens.
* The external collaborators (mailparse MIME decoding, the regex engine)
  are modelled as function parameters collected in `ExtEnv`: `decode` is
  mailparse's header-value decoding (`get_value` / `parse_header`), and
  `regexc` is `regex::Regex::new` followed by `is_match` (`none` models a
  pattern that fails to compile).
* IMAP fetch responses are modelled post-parse: a `FetchResp` carries the
  parsed header list, the decoded text sub-part bodies, the internal date
  and the body structure, each `Option`al because the server may omit any
  requested item.
-/

/-- Epoch-second timestamps, as produced by `DateTime::timestamp()`. -/
abbrev Ts := Int

/-- A Rust panic (`unwrap` failure or `usize` subtraction underflow). -/
inductive PanicE where
  | unwrapFailed
  | subUnderflow
deriving DecidableEq

/-- `pub struct Attachment` of client.rs (name already header-decoded). -/
structure Attachment where
  name : String
  size : Option Nat
deriving DecidableEq

/-- `pub struct Mail` of client.rs. -/
structure Mail where
  subject : String
  «from» : String
  «to» : List String
  cc : List String
  uid : Nat
  body : String
  /-- `internal_date.timestamp()` of the mail (epoch seconds). -/
  internal_ts : Ts
  attachments : List Attachment
deriving DecidableEq

/-- The filter configuration of `pub struct MailFilter` (client.rs):
the date endpoints are kept as their epoch-second timestamps, which is
all `fetch` compares (`%d-%b-%Y` day formatting is `dayOf` below). -/
structure MailFilter where
  subject_pattern : String
  start_ts : Ts
  end_ts : Ts
  regex : Bool
  reverse : Bool

/-- `imap_proto::ContentDisposition`: a disposition type plus optional
`(name, value)` parameter pairs. -/
structure ContentDisposition where
  ty : String
  params : Option (List (String × String))

/-- `imap_proto::BodyStructure`, restricted to what client.rs matches on:
only a `basic` part's disposition and a `multipart`'s child list are
inspected; every other variant falls through the `if let` patterns. -/
inductive BodyStruct where
  | basic (disposition : Option ContentDisposition)
  | textPart
  | message
  | multipart (bodies : List BodyStruct)

/-- External collaborators of the engine (mailparse decoding, regex). -/
structure ExtEnv where
  /-- mailparse header-value decoding (`get_value`, `parse_header`). -/
  decode : String → String
  /-- `regex::Regex::new(p)` followed by `is_match`; `none` = pattern does
  not compile. -/
  regexc : String → Option (String → Bool)

/-- One UID's fetch response, modelled after the parsed data client.rs
reads from it.  `present = false` models `messages.iter().next() == None`.
Each data item is `Option`al: `none` models the item being absent from the
response (`internal_date()`, `header()`, `text()`, `bodystructure()`
returning `None`). -/
structure FetchResp where
  present : Bool
  internalDate : Option Ts
  /-- parsed header list of `parse_mail(message.header())`: ordered
  `(name, raw value)` pairs. -/
  headers : Option (List (String × String))
  /-- decoded bodies (`get_body().unwrap_or_default()`) of the sub-parts of
  `parse_mail(message.text())`, in order. -/
  textParts : Option (List String)
  bodystructure : Option BodyStruct

/-! ### Character-level string helpers

Rust's `str::split`, `trim`, `replace` and `u32` parsing are embedded as
structural functions over `List Char` so that all evaluations reduce in the
kernel. -/

/-- ASCII whitespace test used for `str::trim` (Rust trims Unicode
whitespace; the ASCII subset is what the claims exercise). -/
def isWsCh (c : Char) : Bool :=
  c = ' ' || c = '\t' || c = '\n' || c = '\r'

/-- `str::trim`: drop whitespace from both ends. -/
def trimChs (cs : List Char) : List Char :=
  ((cs.dropWhile isWsCh).reverse.dropWhile isWsCh).reverse

/-- `str::split(sep)` for a one-character separator: splits at every
occurrence, keeping empty segments; the empty string yields `[[]]`
(one empty segment), exactly as in Rust. -/
def splitCh (sep : Char) : List Char → List (List Char)
  | [] => [[]]
  | c :: cs =>
    let r := splitCh sep cs
    if c = sep then [] :: r
    else
      match r with
      | [] => [[c]]
      | g :: gs => (c :: g) :: gs

/-- ASCII lower-casing of one character (mailparse header-name lookup is
case-insensitive). -/
def lowerCh (c : Char) : Char :=
  if 65 ≤ c.toNat ∧ c.toNat ≤ 90 then Char.ofNat (c.toNat + 32) else c

/-- ASCII lower-casing of a character list. -/
def lowerChs (cs : List Char) : List Char := cs.map lowerCh

/-- `hasPre pat cs`: `pat` is a prefix of `cs`. -/
def hasPre : List Char → List Char → Bool
  | [], _ => true
  | _ :: _, [] => false
  | p :: ps, c :: cs => p = c && hasPre ps cs

/-- Substring containment (`str::contains` of Rust, used by the literal
subject matcher). -/
def hasSub (pat : List Char) : List Char → Bool
  | [] => pat.isEmpty
  | c :: cs => hasPre pat (c :: cs) || hasSub pat cs

/-- `subject.contains(&pattern)` of Rust. -/
def strContainsSub (s pat : String) : Bool := hasSub pat.data s.data

/-- If `pat` is a prefix of the list, return the remainder. -/
def stripPre : List Char → List Char → Option (List Char)
  | [], cs => some cs
  | _ :: _, [] => none
  | p :: ps, c :: cs => if p = c then stripPre ps cs else none

/-- Fuel-driven removal of every occurrence of `pat` (Rust
`str::replace(pat, "")`, left to right, non-overlapping).  The fuel is an
upper bound on the number of steps; `stripPat` supplies `cs.length`, which
is exact for a non-empty pattern. -/
def stripPatFuel (pat : List Char) : Nat → List Char → List Char
  | _, [] => []
  | 0, cs => cs
  | Nat.succ fuel, c :: cs =>
    match stripPre pat (c :: cs) with
    | some rest => stripPatFuel pat fuel rest
    | none => c :: stripPatFuel pat fuel cs

/-- `str::replace(pat, "")` for a non-empty `pat`. -/
def stripPat (pat : List Char) (cs : List Char) : List Char :=
  stripPatFuel pat cs.length cs

/-- Decimal digit test (`char::is_ascii_digit`). -/
def isDigitCh (c : Char) : Bool := 48 ≤ c.toNat && c.toNat ≤ 57

/-- Numeric value of a digit list (most significant first). -/
def digitsVal (cs : List Char) : Nat :=
  cs.foldl (fun a c => a * 10 + (c.toNat - 48)) 0

/-- Rust `str::parse::<u32>()`: an optional leading `+`, then one or more
ASCII digits, value at most `u32::MAX`; anything else is a parse error. -/
def parseU32 (s : String) : Option Nat :=
  let cs := match s.data with
    | '+' :: rest => rest
    | cs => cs
  if cs ≠ [] ∧ cs.all isDigitCh ∧ digitsVal cs < 4294967296 then
    some (digitsVal cs)
  else none

/-! ### Header access and address splitting (client.rs lines 198–233) -/

/-- mailparse `get_first_header(name)` followed by taking the raw value:
first header whose name matches case-insensitively. -/
def getFirstHeader (hs : List (String × String)) (name : String) : Option String :=
  (hs.find? (fun kv => lowerChs kv.1.data == lowerChs name.data)).map (fun kv => kv.2)

/-- `value.split(',').map(|s| s.trim().to_string()).collect()` of client.rs:
split the (decoded) header value on commas and trim each part.  Note that
the empty string splits into one empty segment, as in Rust. -/
def splitAddrs (s : String) : List String :=
  (splitCh ',' s.data).map (fun g => String.mk (trimChs g))

/-! ### Attachment extraction (client.rs lines 160–191, 295–303) -/

/-- The attachment(s) contributed by one immediate child of the top-level
multipart body structure (client.rs lines 168–190).  Only a `basic` part
with disposition type `"attachment"` and present parameters contributes;
`params[0].1` (indexing) panics if the parameter list is empty, and
`params.get(1).map(|v| v.1.parse::<u32>().unwrap())` panics if a second
parameter is present but not a `u32`.  `Attachment::new` re-decodes the
name through the header-decoding path, modelled by `env.decode`. -/
def extractBody (decode : String → String) : BodyStruct → Except PanicE (List Attachment)
  | .basic (some cd) =>
    if cd.ty = "attachment" then
      match cd.params with
      | none => .ok []
      | some [] => .error .unwrapFailed
      | some (p0 :: rest) =>
        match rest with
        | [] => .ok [⟨decode p0.2, none⟩]
        | p1 :: _ =>
          match parseU32 p1.2 with
          | some n => .ok [⟨decode p0.2, some n⟩]
          | none => .error .unwrapFailed
    else .ok []
  | _ => .ok []

/-- The loop over `bodies` of the top-level `Multipart` (client.rs
lines 168–190), collecting attachments in order; a panic aborts. -/
def extractList (decode : String → String) : List BodyStruct → Except PanicE (List Attachment)
  | [] => .ok []
  | b :: rest =>
    match extractBody decode b with
    | .error e => .error e
    | .ok a =>
      match extractList decode rest with
      | .error e => .error e
      | .ok more => .ok (a ++ more)

/-- client.rs lines 160–191: attachments come only from the immediate
children of a top-level `Multipart`; any other top node yields none. -/
def extractAttachments (decode : String → String) : BodyStruct → Except PanicE (List Attachment)
  | .multipart bodies => extractList decode bodies
  | _ => .ok []

/-! ### Building one Mail record (client.rs lines 198–233) -/

/-- Construction of the `Mail` value (client.rs lines 198–233).
`get_first_header(..).map(get_value).unwrap_or_default()` is
`(getFirstHeader …).map env.decode |>.getD ""`; `to`/`cc` are then comma
split and trimmed; `body` is the decoded body of the first sub-part of the
parsed text (absent text parses to no sub-parts, giving `""`). -/
def buildMail (env : ExtEnv) (uid : Nat) (date : Ts) (atts : List Attachment)
    (hs : List (String × String)) (textParts : Option (List String)) : Mail :=
  { subject := ((getFirstHeader hs "Subject").map env.decode).getD ""
    «from» := ((getFirstHeader hs "From").map env.decode).getD ""
    «to» := splitAddrs (((getFirstHeader hs "To").map env.decode).getD "")
    cc := splitAddrs (((getFirstHeader hs "CC").map env.decode).getD "")
    uid := uid
    body := ((textParts.getD []).head?).getD ""
    internal_ts := date
    attachments := atts }

/-! ### The per-candidate pipeline (client.rs lines 143–247) -/

/-- The exact client-side date rejection test of client.rs lines 154–158:
`date.timestamp() < start.timestamp() || date.timestamp() > end.timestamp()`. -/
def dateFilterRejects (cfg : MailFilter) (t : Ts) : Bool :=
  decide (t < cfg.start_ts) || decide (t > cfg.end_ts)

/-- The subject filter of client.rs lines 235–244: with the regex flag the
pattern is compiled (per candidate!) and `unwrap`ped — a non-compiling
pattern panics here; otherwise literal substring containment. -/
def subjectKeeps (regexc : String → Option (String → Bool)) (cfg : MailFilter)
    (subj : String) : Except PanicE Bool :=
  if cfg.regex then
    match regexc cfg.subject_pattern with
    | some m => .ok (m subj)
    | none => .error .unwrapFailed
  else .ok (strContainsSub subj cfg.subject_pattern)

/-- Processing of one candidate UID (client.rs lines 145–246):
`ok none` = the candidate is skipped (`continue`), `ok (some m)` = the
candidate is accepted, `error` = the run panics.  The order of the steps
mirrors the source: message presence, internal date (`unwrap`), exact date
filter, body structure (`unwrap`) and attachment extraction, header
(`unwrap`) and record construction, then the subject filter. -/
def processUid (env : ExtEnv) (cfg : MailFilter) (uid : Nat) (r : FetchResp) :
    Except PanicE (Option Mail) :=
  if r.present then
    match r.internalDate with
    | none => .error .unwrapFailed
    | some date =>
      if dateFilterRejects cfg date then .ok none
      else
        match r.bodystructure with
        | none => .error .unwrapFailed
        | some bs =>
          match extractAttachments env.decode bs with
          | .error e => .error e
          | .ok atts =>
            match r.headers with
            | none => .error .unwrapFailed
            | some hs =>
              let mail := buildMail env uid date atts hs r.textParts
              match subjectKeeps env.regexc cfg mail.subject with
              | .error e => .error e
              | .ok true => .ok (some mail)
              | .ok false => .ok none
  else .ok none

/-- The loop over the candidate UIDs (client.rs lines 144–247), in the
order the coarse search returned them; a panic aborts the whole run. -/
def processUids (env : ExtEnv) (cfg : MailFilter) (resp : Nat → FetchResp) :
    List Nat → Except PanicE (List Mail)
  | [] => .ok []
  | uid :: rest =>
    match processUid env cfg uid (resp uid) with
    | .error e => .error e
    | .ok m? =>
      match processUids env cfg resp rest with
      | .error e => .error e
      | .ok ms =>
        .ok (match m? with
          | some m => m :: ms
          | none => ms)

/-! ### Sorting (client.rs lines 250–253)

`mails.sort_by_key(|v| -v.internal_date.timestamp())` is a stable sort by
internal date descending; it is embedded as stable insertion sort (an
element goes in front of another exactly when its timestamp is at least as
large, so equal timestamps keep their input order). -/

/-- Stable descending insertion: `x` is placed before the first element
whose timestamp is at most `x`'s. -/
def insertMailDesc (x : Mail) : List Mail → List Mail
  | [] => [x]
  | y :: ys =>
    if x.internal_ts ≥ y.internal_ts then x :: y :: ys
    else y :: insertMailDesc x ys

/-- Stable sort by `internal_ts` descending (the unique result of a stable
sort with key `-timestamp`, as `Vec::sort_by_key` performs). -/
def sortMailsDesc : List Mail → List Mail
  | [] => []
  | x :: xs => insertMailDesc x (sortMailsDesc xs)

/-- client.rs lines 250–253: stable descending sort, then a full reversal
when the reverse flag is set. -/
def sortPhase (rev : Bool) (ms : List Mail) : List Mail :=
  let s := sortMailsDesc ms
  if rev then s.reverse else s

/-- `MailFilter::fetch` (client.rs lines 131–256) after the coarse search:
`searchResult = none` models `session.search(query)` returning `Err(_)`
(the `if let Ok(uids)` falls through, leaving the list empty);
`some uids` is the candidate list.  The per-candidate loop runs, then the
sort phase. -/
def runFetch (env : ExtEnv) (cfg : MailFilter) (searchResult : Option (List Nat))
    (resp : Nat → FetchResp) : Except PanicE (List Mail) :=
  match searchResult with
  | none => .ok (sortPhase cfg.reverse [])
  | some uids =>
    match processUids env cfg resp uids with
    | .error e => .error e
    | .ok ms => .ok (sortPhase cfg.reverse ms)

/-! ### Calendar days and the coarse query (client.rs lines 133–137) -/

/-- The calendar day number of an epoch-second timestamp under a fixed
offset (chrono: days since the epoch of the local time, floor division). -/
def dayOf (offsetSecs t : Ts) : Int := Int.fdiv (t + offsetSecs) 86400

/-- Modelled from the spec: the transport's day-granular date search
(IMAP `SINCE`/`BEFORE`), which is outside this repository.  Per spec
§4.3/§6 the search selects messages whose internal-date calendar day `d`
satisfies `sinceDay ≤ d < beforeDay` (the interval `[sinceDate,
beforeDate)` — `BEFORE` is exclusive).  client.rs line 133–137 formats
`sinceDay` from the start's calendar date and `beforeDay` from the end's
calendar date. -/
def coarseSelects (sinceDay beforeDay d : Int) : Bool :=
  decide (sinceDay ≤ d) && decide (d < beforeDay)

/-! ### Attachment download (client.rs lines 80–103) -/

/-- A parsed MIME part as mailparse presents it to `MailBox::download`:
the first `Content-Disposition` header value (if any), the raw body bytes
(`get_body_raw()`), and the immediate sub-parts. -/
inductive MimePart where
  | mk (dispositionHeader : Option String) (bodyRaw : List Nat) (children : List MimePart)

def MimePart.dispositionHeader : MimePart → Option String
  | .mk d _ _ => d

def MimePart.bodyRaw : MimePart → List Nat
  | .mk _ b _ => b

def MimePart.children : MimePart → List MimePart
  | .mk _ _ cs => cs

/-- The filename computation of client.rs lines 90–96:
`split(';').nth(1)` (panics — `none` — when there is no second segment),
then `.trim().replace('"', "").replace("filename=", "")`. -/
def filenameOf (cd : String) : Option String :=
  ((splitCh ';' cd.data).get? 1).map (fun seg =>
    String.mk (stripPat ("filename=".data) ((trimChs seg).filter (fun c => c ≠ '"'))))

/-- Insert-with-overwrite into an association map, the effect of
`HashMap::insert` (a later insert with the same key replaces the value). -/
def insertA (m : List (String × List Nat)) (k : String) (v : List Nat) :
    List (String × List Nat) :=
  match m with
  | [] => [(k, v)]
  | (k', v') :: rest => if k' = k then (k, v) :: rest else (k', v') :: insertA rest k v

/-- Lookup in the association map (the effect of `HashMap::get`). -/
def lookupA : List (String × List Nat) → String → Option (List Nat)
  | [], _ => none
  | e :: rest, k => if e.1 = k then some e.2 else lookupA rest k

/-- The loop of `MailBox::download` (client.rs lines 87–100) over the
immediate sub-parts of the parsed body: every part carrying a
`Content-Disposition` header contributes `filename ↦ raw bytes`; a
disposition value without a second `;`-segment panics
(`split(';').nth(1).unwrap()`). -/
def downloadLoop (acc : List (String × List Nat)) :
    List MimePart → Except PanicE (List (String × List Nat))
  | [] => .ok acc
  | p :: rest =>
    match p.dispositionHeader with
    | none => downloadLoop acc rest
    | some cd =>
      match filenameOf cd with
      | none => .error .unwrapFailed
      | some fn => downloadLoop (insertA acc fn p.bodyRaw) rest

/-- `MailBox::download` (client.rs lines 80–103): walk the parsed
message's immediate sub-parts only. -/
def download (msg : MimePart) : Except PanicE (List (String × List Nat)) :=
  downloadLoop [] msg.children

/-! ### Interactive navigation (search.rs lines 65–91) -/

/-- `App::next` (search.rs lines 65–77) on a selected index and the mail
list length.  With a selection present, Rust evaluates
`self.mails.len() - 1` inside the comparison, which underflows (panics)
when the list is empty. -/
def nextIndex (selected : Option Nat) (len : Nat) : Except PanicE Nat :=
  match selected with
  | some i =>
    if len = 0 then .error .subUnderflow
    else .ok (if i ≥ len - 1 then 0 else i + 1)
  | none => .ok 0

/-- `App::previous` (search.rs lines 79–91).  `self.mails.len() - 1` is
evaluated only in the `i == 0` branch, so the underflow panic on an empty
list happens only from selected index 0; from a positive index the result
is `i - 1` even when the list is empty. -/
def prevIndex (selected : Option Nat) (len : Nat) : Except PanicE Nat :=
  match selected with
  | some i =>
    if i = 0 then
      if len = 0 then .error .subUnderflow else .ok (len - 1)
    else .ok (i - 1)
  | none => .ok 0

/-! ### Concrete instances used by witnesses and counterexamples -/

/-- A concrete external environment: identity header decoding, and a regex
engine on which no pattern compiles (only used where the regex path's
compile failure itself is under test, or where the literal path is taken). -/
def envId : ExtEnv := { decode := fun s => s, regexc := fun _ => none }

/-- A permissive filter configuration: empty literal pattern (matches every
subject), window `[0, 100]`, defaults for the flags. -/
def cfgAll : MailFilter :=
  { subject_pattern := "", start_ts := 0, end_ts := 100, regex := false, reverse := false }

/-- A fetch oracle on which no UID yields a message. -/
def respAbsent : Nat → FetchResp :=
  fun _ => { present := false, internalDate := none, headers := none,
             textParts := none, bodystructure := none }

/-! ### Sorting lemmas (stability and order of `sortMailsDesc`) -/

theorem insertMailDesc_mem (x z : Mail) (l : List Mail) :
    z ∈ insertMailDesc x l ↔ z = x ∨ z ∈ l := by
  induction l with
  | nil => simp [insertMailDesc]
  | cons y ys ih =>
    simp only [insertMailDesc]
    split
    · simp [List.mem_cons]
    · simp only [List.mem_cons, ih]
      tauto

theorem insertMailDesc_pairwise (x : Mail) (l : List Mail)
    (h : l.Pairwise (fun a b => b.internal_ts ≤ a.internal_ts)) :
    (insertMailDesc x l).Pairwise (fun a b => b.internal_ts ≤ a.internal_ts) := by
  induction l with
  | nil => simp [insertMailDesc]
  | cons y ys ih =>
    rcases List.pairwise_cons.mp h with ⟨hy, hys⟩
    simp only [insertMailDesc]
    split
    · rename_i hge
      refine List.pairwise_cons.mpr ⟨?_, h⟩
      intro z hz
      rcases List.mem_cons.mp hz with rfl | hz'
      · exact hge
      · exact le_trans (hy z hz') hge
    · rename_i hlt
      refine List.pairwise_cons.mpr ⟨?_, ih hys⟩
      intro z hz
      rcases (insertMailDesc_mem x z ys).mp hz with rfl | hz'
      · exact le_of_not_ge hlt
      · exact hy z hz'

theorem insertMailDesc_filter (x : Mail) (l : List Mail) (c : Ts) :
    (insertMailDesc x l).filter (fun m => decide (m.internal_ts = c)) =
      if x.internal_ts = c then x :: l.filter (fun m => decide (m.internal_ts = c))
      else l.filter (fun m => decide (m.internal_ts = c)) := by
  induction l with
  | nil =>
    by_cases hx : x.internal_ts = c <;> simp [insertMailDesc, List.filter_cons, hx]
  | cons y ys ih =>
    simp only [insertMailDesc]
    split
    · rename_i hge
      by_cases hx : x.internal_ts = c <;> simp [List.filter_cons, hx]
    · rename_i hlt
      by_cases hx : x.internal_ts = c
      · have hy : ¬ y.internal_ts = c := by
          intro hyc
          exact hlt (by rw [hx, hyc])
        simp [List.filter_cons, hx, hy, ih]
      · simp [List.filter_cons, hx, ih]

theorem sortMailsDesc_filter (l : List Mail) (c : Ts) :
    (sortMailsDesc l).filter (fun m => decide (m.internal_ts = c)) =
      l.filter (fun m => decide (m.internal_ts = c)) := by
  induction l with
  | nil => rfl
  | cons x xs ih =>
    simp only [sortMailsDesc, insertMailDesc_filter, ih, List.filter_cons]
    by_cases hx : x.internal_ts = c <;> simp [hx]

theorem sortMailsDesc_pairwise (l : List Mail) :
    (sortMailsDesc l).Pairwise (fun a b => b.internal_ts ≤ a.internal_ts) := by
  induction l with
  | nil => simp [sortMailsDesc]
  | cons x xs ih => exact insertMailDesc_pairwise x _ ih

/-! ### C4 — ordering of the result list -/

/-- Two distinct mails with the same internal date. -/
def mailA : Mail :=
  { subject := "a", «from» := "", «to» := [], cc := [], uid := 1, body := "",
    internal_ts := 10, attachments := [] }

/-- Two distinct mails with the same internal date. -/
def mailB : Mail :=
  { subject := "b", «from» := "", «to» := [], cc := [], uid := 2, body := "",
    internal_ts := 10, attachments := [] }

/-- C4, counterexample: the claim asserts that with the reverse flag,
equal-timestamp mails still preserve the relative order in which the
coarse search returned their UIDs.  On the code (client.rs lines 250–253)
the reverse flag reverses the whole sorted list, so the tie `[mailA,
mailB]` (equal timestamps, coarse order A before B) comes out as
`[mailB, mailA]` — the tie order is inverted, refuting the claim. -/
theorem C4_reverse_tie_counterexample :
    mailA.internal_ts = mailB.internal_ts ∧ mailA ≠ mailB ∧
      sortPhase true [mailA, mailB] = [mailB, mailA] := by
  refine ⟨rfl, by decide, rfl⟩

/-- C4, amended: by default (`reverse = false`) the accepted list is
sorted by internal date descending and the sort is stable — for every
timestamp value, the sublist of mails carrying it is exactly the one of
the input, in input (coarse-search) order.  With the reverse flag the
entire default result is reversed, so the list is ascending and mails with
equal timestamps appear in the reverse of their coarse-search order. -/
theorem C4_sort_amended :
    (∀ ms : List Mail,
       (sortPhase false ms).Pairwise (fun a b => b.internal_ts ≤ a.internal_ts)) ∧
    (∀ (ms : List Mail) (c : Ts),
       (sortPhase false ms).filter (fun m => decide (m.internal_ts = c)) =
         ms.filter (fun m => decide (m.internal_ts = c))) ∧
    (∀ ms : List Mail, sortPhase true ms = (sortPhase false ms).reverse) := by
  refine ⟨?_, ?_, ?_⟩
  · intro ms
    simpa [sortPhase] using sortMailsDesc_pairwise ms
  · intro ms c
    simpa [sortPhase] using sortMailsDesc_filter ms c
  · intro ms
    simp [sortPhase]

/-! ### C5 — the exact client-side date filter -/

/-- A fetch oracle whose message lies at timestamp 50 with empty data. -/
def respAt50 : Nat → FetchResp :=
  fun _ => { present := true, internalDate := some 50, headers := some [],
             textParts := some [], bodystructure := some (.multipart []) }

/-- C5: the exact client-side date filter (client.rs lines 152–158) keeps
a candidate's timestamp `t` iff `start ≤ t ≤ end` at epoch-second
resolution — boundary-equal timestamps are kept — and a candidate whose
internal date is rejected by it is skipped (`ok none`), not an error. -/
theorem C5_exact_date_filter :
    (∀ (cfg : MailFilter) (t : Ts),
       dateFilterRejects cfg t = false ↔ cfg.start_ts ≤ t ∧ t ≤ cfg.end_ts) ∧
    (∀ (env : ExtEnv) (cfg : MailFilter) (uid : Nat) (r : FetchResp) (d : Ts),
       r.present = true → r.internalDate = some d → dateFilterRejects cfg d = true →
       processUid env cfg uid r = .ok none) := by
  constructor
  · intro cfg t
    simp only [dateFilterRejects, Bool.or_eq_false_iff, decide_eq_false_iff_not, not_lt,
      gt_iff_lt]
  · intro env cfg uid r d h1 h2 h3
    simp [processUid, h1, h2, h3]

/-- C5, witness: boundary timestamp 0 of the window `[0, 100]` is kept,
and a message at timestamp 50 is skipped by a window ending at 10. -/
theorem C5_exact_date_filter_witness :
    dateFilterRejects cfgAll 0 = false ∧
      processUid envId { cfgAll with end_ts := 10 } 1 (respAt50 1) = .ok none :=
  ⟨(C5_exact_date_filter.1 cfgAll 0).mpr (by decide),
   C5_exact_date_filter.2 envId { cfgAll with end_ts := 10 } 1 (respAt50 1) 50
     rfl rfl (by decide)⟩

/-! ### C6 — coarse search failure -/

/-- C6: if the server-side date search fails (`session.search` returns
`Err`, modelled by `searchResult = none`), `MailFilter::fetch` returns an
empty list without error; the result does not depend on the per-UID fetch
oracle at all, so no per-candidate fetch is performed. -/
theorem C6_search_failure_zero :
    ∀ (env : ExtEnv) (cfg : MailFilter) (resp : Nat → FetchResp),
      runFetch env cfg none resp = .ok [] := by
  intro env cfg resp
  simp [runFetch, sortPhase, sortMailsDesc]

/-! ### C1 — the coarse query is not a superset of the exact window -/

/-- The window with `start = end = 2023-01-01T08:00:00Z`
(epoch 1672560000). -/
def cfgC1 : MailFilter :=
  { subject_pattern := "", start_ts := 1672560000, end_ts := 1672560000,
    regex := false, reverse := false }

/-- C1: code bug, evaluated at the failing input.  For the window
`start = end = 2023-01-01T08:00:00Z`, a message whose internal date is
exactly that instant is inside the exact window (the client-side filter
would keep it), yet the coarse query the code builds — `SINCE` from the
start's calendar day and `BEFORE` from the end's own calendar day
(client.rs lines 133–137), with `BEFORE` exclusive per spec §4.3 —
selects no day at all, so the server search excludes the message.  The
coarse query is therefore not a superset of the exact window: every
message on the end date's calendar day is lost. -/
theorem C1_coarse_not_superset :
    dateFilterRejects cfgC1 1672560000 = false ∧
      coarseSelects (dayOf 0 cfgC1.start_ts) (dayOf 0 cfgC1.end_ts)
        (dayOf 0 1672560000) = false := by
  decide

/-! ### C10 — interactive navigation -/

/-- C10, counterexample: the claim asserts that on an empty mail list with
some index selected, BOTH operations evaluate `mails.len() - 1` and panic
by underflow.  `App::previous` (search.rs lines 79–91) evaluates
`len - 1` only in its `i == 0` branch: from selected index 1 on an empty
list it returns index 0 without panicking. -/
theorem C10_previous_counterexample : prevIndex (some 1) 0 = .ok 0 := rfl

/-- C10, amended: with a non-empty list and an in-bounds (or absent)
selection, `next` and `previous` return in-bounds indices and wrap
cyclically (`next` from the last index gives 0, `previous` from 0 gives
the last index).  On an empty list, `next` with any selection panics by
evaluating `len - 1`; `previous` panics only from selected index 0, and
from a positive selected index `i + 1` returns `i` without evaluating
`len - 1`. -/
theorem C10_nav_amended :
    (∀ len i : Nat, 0 < len → i < len →
       (∃ j, nextIndex (some i) len = .ok j ∧ j < len) ∧
       (∃ j, prevIndex (some i) len = .ok j ∧ j < len)) ∧
    (∀ len : Nat, 0 < len →
       nextIndex (some (len - 1)) len = .ok 0 ∧
       prevIndex (some 0) len = .ok (len - 1)) ∧
    (∀ len : Nat, nextIndex none len = .ok 0 ∧ prevIndex none len = .ok 0) ∧
    (∀ i : Nat, nextIndex (some i) 0 = .error .subUnderflow) ∧
    (prevIndex (some 0) 0 = .error .subUnderflow) ∧
    (∀ i : Nat, prevIndex (some (i + 1)) 0 = .ok i) := by
  refine ⟨?_, ?_, ?_, ?_, rfl, ?_⟩
  · intro len i hlen hi
    constructor
    · simp only [nextIndex]
      rw [if_neg (by omega)]
      refine ⟨_, rfl, ?_⟩
      split <;> omega
    · simp only [prevIndex]
      by_cases h0 : i = 0
      · subst h0
        rw [if_pos rfl, if_neg (by omega)]
        exact ⟨_, rfl, by omega⟩
      · rw [if_neg h0]
        exact ⟨_, rfl, by omega⟩
  · intro len hlen
    have h0 : len ≠ 0 := by omega
    constructor
    · simp [nextIndex, h0]
    · simp [prevIndex, h0]
  · intro len
    exact ⟨rfl, rfl⟩
  · intro i
    simp [nextIndex]
  · intro i
    simp [prevIndex]

/-- C10, witness: the amended theorem applied on a 3-element list at
index 2 (in bounds both ways), at the wrap positions, and on the empty
list with selection 5. -/
theorem C10_nav_witness :
    (∃ j, nextIndex (some 2) 3 = .ok j ∧ j < 3) ∧
      nextIndex (some 2) 3 = .ok 0 ∧ prevIndex (some 0) 3 = .ok 2 ∧
      nextIndex (some 5) 0 = .error .subUnderflow :=
  ⟨(C10_nav_amended.1 3 2 (by decide) (by decide)).1,
   (C10_nav_amended.2.1 3 (by decide)).1,
   (C10_nav_amended.2.1 3 (by decide)).2,
   C10_nav_amended.2.2.2.1 5⟩

/-! ### C2 — absent fetch data -/

/-- A fetch oracle whose message is present but lacks the internal date. -/
def respNoDate : Nat → FetchResp :=
  fun _ => { present := true, internalDate := none, headers := some [],
             textParts := some [], bodystructure := some (.multipart []) }

/-- A fetch oracle whose message lacks only the structural metadata. -/
def respNoStruct : Nat → FetchResp :=
  fun _ => { present := true, internalDate := some 50, headers := some [],
             textParts := some [], bodystructure := none }

/-- A fetch oracle whose message lacks only the header data. -/
def respNoHdr : Nat → FetchResp :=
  fun _ => { present := true, internalDate := some 50, headers := none,
             textParts := some [], bodystructure := some (.multipart []) }

/-- C2, counterexample: a candidate whose fetch response carries a message
without structural metadata.  The claim says the run never aborts and such
a message still yields a `MailRecord` with an empty attachment sequence;
on the code (client.rs line 161, `message.bodystructure().unwrap()`) the
whole run aborts with a panic instead. -/
theorem C2_missing_struct_counterexample :
    runFetch envId cfgAll (some [5]) respNoStruct = .error .unwrapFailed := rfl

/-- C2, amended: a candidate UID whose fetch response contains no message
at all is skipped silently and the remaining UIDs are still processed;
but a message lacking the internal date, the structural metadata (reached
once the date passes the exact filter), or the header data (reached once
attachment extraction succeeds) aborts the whole run with a panic rather
than being skipped.  Only a missing text body is tolerated: it yields an
empty body string. -/
theorem C2_fetch_miss_amended :
    (∀ (env : ExtEnv) (cfg : MailFilter) (resp : Nat → FetchResp) (uid : Nat)
       (rest : List Nat), (resp uid).present = false →
       processUids env cfg resp (uid :: rest) = processUids env cfg resp rest) ∧
    (∀ (env : ExtEnv) (cfg : MailFilter) (resp : Nat → FetchResp) (uid : Nat)
       (rest : List Nat), (resp uid).present = true → (resp uid).internalDate = none →
       processUids env cfg resp (uid :: rest) = .error .unwrapFailed) ∧
    (∀ (env : ExtEnv) (cfg : MailFilter) (resp : Nat → FetchResp) (uid : Nat)
       (rest : List Nat) (d : Ts), (resp uid).present = true →
       (resp uid).internalDate = some d → dateFilterRejects cfg d = false →
       (resp uid).bodystructure = none →
       processUids env cfg resp (uid :: rest) = .error .unwrapFailed) ∧
    (∀ (env : ExtEnv) (cfg : MailFilter) (resp : Nat → FetchResp) (uid : Nat)
       (rest : List Nat) (d : Ts) (bs : BodyStruct) (atts : List Attachment),
       (resp uid).present = true → (resp uid).internalDate = some d →
       dateFilterRejects cfg d = false → (resp uid).bodystructure = some bs →
       extractAttachments env.decode bs = .ok atts → (resp uid).headers = none →
       processUids env cfg resp (uid :: rest) = .error .unwrapFailed) ∧
    (∀ (env : ExtEnv) (uid : Nat) (d : Ts) (atts : List Attachment)
       (hs : List (String × String)),
       (buildMail env uid d atts hs none).body = "") := by
  refine ⟨?_, ?_, ?_, ?_, ?_⟩
  · intro env cfg resp uid rest h
    simp only [processUids, processUid, h, Bool.false_eq_true, if_false]
    cases processUids env cfg resp rest <;> rfl
  · intro env cfg resp uid rest h1 h2
    simp [processUids, processUid, h1, h2]
  · intro env cfg resp uid rest d h1 h2 h3 h4
    simp [processUids, processUid, h1, h2, h3, h4]
  · intro env cfg resp uid rest d bs atts h1 h2 h3 h4 h5 h6
    simp [processUids, processUid, h1, h2, h3, h4, h5, h6]
  · intro env uid d atts hs
    rfl

/-- C2, witness: the amended behaviours at concrete inputs — a skipped
absent message, a run aborted by a missing internal date, a missing body
structure, and a missing header, and the empty body from a missing text. -/
theorem C2_fetch_miss_witness :
    processUids envId cfgAll respAbsent [7, 9] = processUids envId cfgAll respAbsent [9] ∧
      processUids envId cfgAll respNoDate [7] = .error .unwrapFailed ∧
      processUids envId cfgAll respNoStruct [7] = .error .unwrapFailed ∧
      processUids envId cfgAll respNoHdr [7] = .error .unwrapFailed ∧
      (buildMail envId 7 50 [] [] none).body = "" :=
  ⟨C2_fetch_miss_amended.1 envId cfgAll respAbsent 7 [9] rfl,
   C2_fetch_miss_amended.2.1 envId cfgAll respNoDate 7 [] rfl rfl,
   C2_fetch_miss_amended.2.2.1 envId cfgAll respNoStruct 7 [] 50 rfl rfl (by decide) rfl,
   C2_fetch_miss_amended.2.2.2.1 envId cfgAll respNoHdr 7 [] 50 (.multipart []) []
     rfl rfl (by decide) rfl rfl rfl,
   C2_fetch_miss_amended.2.2.2.2 envId 7 50 [] []⟩

/-! ### C3 — invalid regex pattern -/

/-- The regex-variant configuration with the non-compiling pattern `"("`:
`envId.regexc` maps every pattern to `none`, modelling exactly that
`regex::Regex::new("(")` fails. -/
def cfgBadRe : MailFilter :=
  { subject_pattern := "(", start_ts := 0, end_ts := 100, regex := true, reverse := false }

/-- C3, counterexample: the claim says a non-compiling pattern is reported
to the caller before any network activity.  On the code the pattern is
compiled only inside the per-candidate loop (client.rs lines 235–241):
with the coarse search already performed and returning zero candidates,
the whole query completes successfully — the invalid pattern is never
reported at all, let alone before the search. -/
theorem C3_invalid_regex_counterexample :
    runFetch envId cfgBadRe (some []) respAbsent = .ok [] := rfl

/-- C3, amended: an invalid regex pattern is not checked at construction
time; the query proceeds through the coarse search and the per-candidate
fetches, and the failure surfaces (as a panic) only when some candidate
reaches the subject-filter step.  If no candidate reaches that step the
invalid pattern is never reported and the query returns normally. -/
theorem C3_invalid_regex_amended :
    (∀ (env : ExtEnv) (cfg : MailFilter) (resp : Nat → FetchResp),
       cfg.regex = true → env.regexc cfg.subject_pattern = none →
       runFetch env cfg (some []) resp = .ok []) ∧
    (∀ (env : ExtEnv) (cfg : MailFilter) (resp : Nat → FetchResp) (uid : Nat)
       (rest : List Nat) (d : Ts) (bs : BodyStruct) (atts : List Attachment)
       (hs : List (String × String)),
       cfg.regex = true → env.regexc cfg.subject_pattern = none →
       (resp uid).present = true → (resp uid).internalDate = some d →
       dateFilterRejects cfg d = false → (resp uid).bodystructure = some bs →
       extractAttachments env.decode bs = .ok atts → (resp uid).headers = some hs →
       processUids env cfg resp (uid :: rest) = .error .unwrapFailed) := by
  constructor
  · intro env cfg resp _ _
    simp [runFetch, processUids, sortPhase, sortMailsDesc]
  · intro env cfg resp uid rest d bs atts hs hre hc h1 h2 h3 h4 h5 h6
    simp [processUids, processUid, subjectKeeps, hre, hc, h1, h2, h3, h4, h5, h6]

/-- A fetch oracle carrying a complete, attachment-free message at
timestamp 50 with no headers set. -/
def respPlain : Nat → FetchResp :=
  fun _ => { present := true, internalDate := some 50, headers := some [],
             textParts := some [], bodystructure := some (.multipart []) }

/-- C3, witness: the amended theorem at concrete inputs — the zero
candidate query returns normally, and one full candidate aborts the run
at the subject-filter step. -/
theorem C3_invalid_regex_witness :
    runFetch envId cfgBadRe (some []) respPlain = .ok [] ∧
      processUids envId cfgBadRe respPlain [5] = .error .unwrapFailed :=
  ⟨C3_invalid_regex_amended.1 envId cfgBadRe respPlain rfl rfl,
   C3_invalid_regex_amended.2 envId cfgBadRe respPlain 5 [] 50 (.multipart []) [] []
     rfl rfl rfl rfl (by decide) rfl rfl rfl⟩

/-! ### C7 — To/CC splitting -/

/-- C7, counterexample: the claim says an absent To header yields an empty
sequence (length zero).  On the code (client.rs lines 210–217),
`unwrap_or_default` produces the empty string, and Rust's
`"".split(',')` yields one empty segment, so the resulting sequence is
`[""]` — length one, not zero. -/
theorem C7_absent_header_counterexample :
    (buildMail envId 1 0 [] [] none).«to» = [""] ∧
      ((buildMail envId 1 0 [] [] none).«to»).length = 1 := by
  exact ⟨rfl, rfl⟩

/-- C7, amended: `to` and `cc` are computed from the first occurrence of
the respective header (case-insensitive first match) by splitting its
decoded value on `,` and trimming surrounding whitespace from each part;
when the header is absent the empty string is split instead, producing a
one-element sequence containing the empty string (length one), not an
empty sequence. -/
theorem C7_to_cc_amended :
    (∀ (env : ExtEnv) (uid : Nat) (d : Ts) (atts : List Attachment)
       (hs : List (String × String)) (tp : Option (List String)),
       getFirstHeader hs "To" = none → (buildMail env uid d atts hs tp).«to» = [""]) ∧
    (∀ (env : ExtEnv) (uid : Nat) (d : Ts) (atts : List Attachment)
       (hs : List (String × String)) (tp : Option (List String)) (v : String),
       getFirstHeader hs "To" = some v →
       (buildMail env uid d atts hs tp).«to» = splitAddrs (env.decode v)) ∧
    (∀ (env : ExtEnv) (uid : Nat) (d : Ts) (atts : List Attachment)
       (hs : List (String × String)) (tp : Option (List String)),
       getFirstHeader hs "CC" = none → (buildMail env uid d atts hs tp).cc = [""]) ∧
    (∀ (env : ExtEnv) (uid : Nat) (d : Ts) (atts : List Attachment)
       (hs : List (String × String)) (tp : Option (List String)) (v : String),
       getFirstHeader hs "CC" = some v →
       (buildMail env uid d atts hs tp).cc = splitAddrs (env.decode v)) := by
  refine ⟨?_, ?_, ?_, ?_⟩
  · intro env uid d atts hs tp h
    simp [buildMail, h]
    rfl
  · intro env uid d atts hs tp v h
    simp [buildMail, h]
  · intro env uid d atts hs tp h
    simp [buildMail, h]
    rfl
  · intro env uid d atts hs tp v h
    simp [buildMail, h]

/-- C7, witness: the amended theorem at concrete inputs — a present To
header is split on commas and trimmed, and absent To/CC headers yield the
one-element empty-string sequence. -/
theorem C7_to_cc_witness :
    (buildMail envId 1 0 [] [("To", " a@x , b@y")] none).«to» = splitAddrs " a@x , b@y" ∧
      (buildMail envId 1 0 [] [("Subject", "s")] none).«to» = [""] ∧
      (buildMail envId 1 0 [] [("Subject", "s")] none).cc = [""] :=
  ⟨C7_to_cc_amended.2.1 envId 1 0 [] [("To", " a@x , b@y")] none " a@x , b@y" rfl,
   C7_to_cc_amended.1 envId 1 0 [] [("Subject", "s")] none rfl,
   C7_to_cc_amended.2.2.1 envId 1 0 [] [("Subject", "s")] none rfl⟩

/-! ### C8 — attachment size metadata -/

/-- An attachment body part: disposition type `"attachment"` with a
filename parameter valued `nm` and a second parameter valued `sz`. -/
def attachBasic (k1 nm k2 sz : String) : BodyStruct :=
  .basic (some { ty := "attachment", params := some [(k1, nm), (k2, sz)] })

/-- C8: when an attachment part's disposition carries a second parameter,
the size is that parameter's value parsed as an unsigned integer
(client.rs line 187); when the parameter does not parse, the extraction
fails hard (`parse::<u32>().unwrap()` panics), and that failure aborts
the whole `fetch` run — the attachment is not silently skipped. -/
theorem C8_attachment_size :
    (∀ (env : ExtEnv) (k1 nm k2 sz : String) (n : Nat), parseU32 sz = some n →
       extractAttachments env.decode (.multipart [attachBasic k1 nm k2 sz]) =
         .ok [{ name := env.decode nm, size := some n }]) ∧
    (∀ (env : ExtEnv) (k1 nm k2 sz : String) (rest : List BodyStruct),
       parseU32 sz = none →
       extractList env.decode (attachBasic k1 nm k2 sz :: rest) = .error .unwrapFailed) ∧
    (∀ (env : ExtEnv) (cfg : MailFilter) (resp : Nat → FetchResp) (uid : Nat)
       (rest : List Nat) (d : Ts) (bodies : List BodyStruct),
       (resp uid).present = true → (resp uid).internalDate = some d →
       dateFilterRejects cfg d = false →
       (resp uid).bodystructure = some (.multipart bodies) →
       extractList env.decode bodies = .error .unwrapFailed →
       runFetch env cfg (some (uid :: rest)) resp = .error .unwrapFailed) := by
  refine ⟨?_, ?_, ?_⟩
  · intro env k1 nm k2 sz n h
    simp [extractAttachments, extractList, extractBody, attachBasic, h]
  · intro env k1 nm k2 sz rest h
    simp [extractList, extractBody, attachBasic, h]
  · intro env cfg resp uid rest d bodies h1 h2 h3 h4 h5
    simp [runFetch, processUids, processUid, extractAttachments, h1, h2, h3, h4, h5]

/-- C8, witness: a parseable size `"1024"` yields `size = some 1024`; the
non-numeric size `"12x"` panics in extraction, and a candidate carrying it
aborts the whole run. -/
theorem C8_attachment_size_witness :
    extractAttachments envId.decode
        (.multipart [attachBasic "filename" "a.pdf" "size" "1024"]) =
      .ok [{ name := "a.pdf", size := some 1024 }] ∧
      extractList envId.decode [attachBasic "filename" "a.pdf" "size" "12x"] =
        .error .unwrapFailed ∧
      runFetch envId cfgAll (some [5])
          (fun _ => { present := true, internalDate := some 50, headers := some [],
                      textParts := some [],
                      bodystructure :=
                        some (.multipart [attachBasic "filename" "a" "size" "12x"]) }) =
        .error .unwrapFailed :=
  ⟨C8_attachment_size.1 envId "filename" "a.pdf" "size" "1024" 1024 (by decide),
   C8_attachment_size.2.1 envId "filename" "a.pdf" "size" "12x" [] (by decide),
   C8_attachment_size.2.2 envId cfgAll _ 5 [] 50
     [attachBasic "filename" "a" "size" "12x"] rfl rfl (by decide) rfl rfl⟩

/-! ### C9 — attachment download -/

/-- The key a part would contribute to the download map: its filename, if
it declares a disposition whose value has a second `;`-segment. -/
def partKey (p : MimePart) : Option String :=
  p.dispositionHeader.bind filenameOf

/-- The keys contributed by a part list, in order. -/
def qualKeys (cs : List MimePart) : List String := cs.filterMap partKey

/-- A part is harmless for the download loop: either it declares no
disposition, or the declared value has a second `;`-segment (so
`split(';').nth(1).unwrap()` does not panic). -/
def dispOk (p : MimePart) : Bool :=
  match p.dispositionHeader with
  | none => true
  | some cd => (filenameOf cd).isSome

theorem lookupA_insertA_self (m : List (String × List Nat)) (k : String) (v : List Nat) :
    lookupA (insertA m k v) k = some v := by
  induction m with
  | nil => simp [insertA, lookupA]
  | cons e rest ih =>
    obtain ⟨k', v'⟩ := e
    simp only [insertA]
    split
    · simp [lookupA]
    · rename_i h
      simp only [lookupA]
      rw [if_neg h]
      exact ih

theorem lookupA_insertA_ne (m : List (String × List Nat)) (k' : String) (v : List Nat)
    (k : String) (h : k' ≠ k) : lookupA (insertA m k' v) k = lookupA m k := by
  induction m with
  | nil => simp [insertA, lookupA, h]
  | cons e rest ih =>
    obtain ⟨k0, v0⟩ := e
    simp only [insertA]
    split
    · rename_i h0
      subst h0
      simp only [lookupA]
      rw [if_neg h, if_neg h]
    · simp only [lookupA]
      split
      · rfl
      · exact ih

theorem downloadLoop_lookup_notin (cs : List MimePart) :
    ∀ (acc m : List (String × List Nat)) (fn : String),
      downloadLoop acc cs = .ok m → fn ∉ qualKeys cs →
      lookupA m fn = lookupA acc fn := by
  induction cs with
  | nil =>
    intro acc m fn h _
    simp only [downloadLoop] at h
    injection h with h
    subst h
    rfl
  | cons p rest ih =>
    intro acc m fn h hnot
    cases hd : p.dispositionHeader with
    | none =>
      simp only [downloadLoop, hd] at h
      have hkeys : qualKeys (p :: rest) = qualKeys rest := by
        simp [qualKeys, List.filterMap_cons, partKey, hd]
      rw [hkeys] at hnot
      exact ih acc m fn h hnot
    | some cd =>
      cases hf : filenameOf cd with
      | none =>
        simp only [downloadLoop, hd, hf] at h
        injection h
      | some k =>
        simp only [downloadLoop, hd, hf] at h
        have hkeys : qualKeys (p :: rest) = k :: qualKeys rest := by
          simp [qualKeys, List.filterMap_cons, partKey, hd, hf]
        rw [hkeys] at hnot
        have hne : fn ≠ k := fun hfk => hnot (hfk ▸ List.mem_cons_self k _)
        have hnot' : fn ∉ qualKeys rest := fun hmem => hnot (List.mem_cons_of_mem k hmem)
        rw [ih _ m fn h hnot']
        exact lookupA_insertA_ne acc k p.bodyRaw fn (Ne.symm hne)

theorem downloadLoop_spec (cs : List MimePart) :
    ∀ acc : List (String × List Nat),
      (∀ p ∈ cs, dispOk p = true) → (qualKeys cs).Nodup →
      ∃ m, downloadLoop acc cs = .ok m ∧
        ∀ p ∈ cs, ∀ cd, p.dispositionHeader = some cd →
          ∀ fn, filenameOf cd = some fn → lookupA m fn = some p.bodyRaw := by
  induction cs with
  | nil =>
    intro acc _ _
    exact ⟨acc, rfl, by simp⟩
  | cons q rest ih =>
    intro acc hok hnd
    cases hd : q.dispositionHeader with
    | none =>
      have hkeys : qualKeys (q :: rest) = qualKeys rest := by
        simp [qualKeys, List.filterMap_cons, partKey, hd]
      rw [hkeys] at hnd
      obtain ⟨m, hm, hprop⟩ := ih acc (fun p hp => hok p (List.mem_cons_of_mem q hp)) hnd
      refine ⟨m, ?_, ?_⟩
      · simp only [downloadLoop, hd]
        exact hm
      · intro p hp cd hcd fn hfn
        rcases List.mem_cons.mp hp with rfl | hp'
        · rw [hd] at hcd
          cases hcd
        · exact hprop p hp' cd hcd fn hfn
    | some cd0 =>
      have hq : dispOk q = true := hok q (List.mem_cons_self q rest)
      have hsome : (filenameOf cd0).isSome = true := by
        simpa [dispOk, hd] using hq
      obtain ⟨k, hk⟩ := Option.isSome_iff_exists.mp hsome
      have hkeys : qualKeys (q :: rest) = k :: qualKeys rest := by
        simp [qualKeys, List.filterMap_cons, partKey, hd, hk]
      rw [hkeys] at hnd
      have hnotin : k ∉ qualKeys rest := (List.nodup_cons.mp hnd).1
      have hnd' : (qualKeys rest).Nodup := (List.nodup_cons.mp hnd).2
      obtain ⟨m, hm, hprop⟩ := ih (insertA acc k q.bodyRaw)
        (fun p hp => hok p (List.mem_cons_of_mem q hp)) hnd'
      refine ⟨m, ?_, ?_⟩
      · simp only [downloadLoop, hd, hk]
        exact hm
      · intro p hp cd hcd fn hfn
        rcases List.mem_cons.mp hp with rfl | hp'
        · rw [hd] at hcd
          injection hcd with hcd'
          subst hcd'
          rw [hk] at hfn
          injection hfn with hfn'
          subst hfn'
          rw [downloadLoop_lookup_notin rest _ m k hm hnotin]
          exact lookupA_insertA_self acc k _
        · exact hprop p hp' cd hcd fn hfn

/-- A message whose only immediate sub-part declares no disposition but
contains, one level deeper, a part that does declare
`Content-Disposition: attachment; filename="r.pdf"`. -/
def msgNested : MimePart :=
  .mk none [] [.mk none [1] [.mk (some "attachment; filename=\"r.pdf\"") [2, 3] []]]

/-- C9, counterexample: the claim says the download mapping contains an
entry for every sub-part at any depth that declares a Content-Disposition
header.  `MailBox::download` (client.rs lines 87–100) iterates only the
immediate `subparts` of the parsed message: on `msgNested` the depth-2
part declares a disposition with filename `r.pdf`, yet the returned
mapping is empty. -/
theorem C9_nested_counterexample :
    download msgNested = .ok [] ∧
      filenameOf "attachment; filename=\"r.pdf\"" = some "r.pdf" := by
  exact ⟨rfl, by decide⟩

/-- C9, amended: the mapping covers only the immediate sub-parts of the
parsed message (parts nested deeper are never visited).  Provided every
immediate sub-part that declares a Content-Disposition header has a
second `;`-segment in its value (otherwise the whole download panics on
`nth(1).unwrap()`), and the extracted filenames are distinct, the
download succeeds and maps each such part's filename — the second
`;`-segment, trimmed, with `"` characters and the text `filename=`
removed — to that part's raw body bytes. -/
theorem C9_download_amended :
    ∀ msg : MimePart,
      (∀ p ∈ msg.children, dispOk p = true) →
      (qualKeys msg.children).Nodup →
      ∃ m, download msg = .ok m ∧
        ∀ p ∈ msg.children, ∀ cd, p.dispositionHeader = some cd →
          ∀ fn, filenameOf cd = some fn → lookupA m fn = some p.bodyRaw := by
  intro msg h1 h2
  exact downloadLoop_spec msg.children [] h1 h2

/-- A message with two immediate attachment sub-parts with distinct
filenames. -/
def msgFlat : MimePart :=
  .mk none []
    [.mk (some "attachment; filename=\"a.txt\"") [1] [],
     .mk (some "attachment; filename=\"b.txt\"") [2] []]

/-- C9, witness: the amended theorem applied to a concrete two-attachment
message. -/
theorem C9_download_witness :
    ∃ m, download msgFlat = .ok m ∧
      ∀ p ∈ msgFlat.children, ∀ cd, p.dispositionHeader = some cd →
        ∀ fn, filenameOf cd = some fn → lookupA m fn = some p.bodyRaw :=
  C9_download_amended msgFlat (by decide) (by decide)
